import Mathlib

/-!
Shallow embedding of the tic-tac-toe engine from `src/main.rs`
(repository gosulliv/tictactoe).

The Rust engine is a mutable `TicTacToe` struct holding a 3×3 board of
`Option<Symbol>` and the symbol whose turn it is.  Mutation is modelled by
explicit state passing: each Rust method `&mut self -> Result<T, &str>`
becomes a Lean function `TicTacToe → TicTacToe × Except String T`, returning
the post-state together with the result.  Machine integers (`usize`) are
modelled as `Nat`.
-/

set_option autoImplicit false

namespace Tictactoe

/-- The two players' marks (`enum Symbol` in the source). -/
inductive Symbol where
  | X
  | O
  deriving DecidableEq, Repr, Fintype

open Symbol

/-- Turn flipping, as in the `match` at the end of `go_indices`. -/
def Symbol.other : Symbol → Symbol
  | X => O
  | O => X

/-- Outcome of evaluating a board (`enum GameState` in the source). -/
inductive GameState where
  | Win (s : Symbol)
  | InProgress
  | Draw
  deriving DecidableEq, Repr

/-- The game struct: board indexed by row then column, plus whose turn it is. -/
structure TicTacToe where
  board : Fin 3 → Fin 3 → Option Symbol
  whose_turn : Symbol

instance : DecidableEq TicTacToe := fun a b =>
  decidable_of_iff (a.board = b.board ∧ a.whose_turn = b.whose_turn)
    (by cases a; cases b; simp)

instance {ε α : Type} [DecidableEq ε] [DecidableEq α] : DecidableEq (Except ε α)
  | Except.error a, Except.error b => decidable_of_iff (a = b) (by simp)
  | Except.error _, Except.ok _ => isFalse (by simp)
  | Except.ok _, Except.error _ => isFalse (by simp)
  | Except.ok a, Except.ok b => decidable_of_iff (a = b) (by simp)

/-- Mirrors the closure `these_win` in `current_state`: if the three cells are
equal, map an occupied value to a win. -/
def these_win (a b c : Option Symbol) : Option GameState :=
  if a = b ∧ a = c then a.map GameState.Win else none

/-- Mirrors `board.iter().map(|x| x.iter()).flatten().all(|x| x.is_some())`,
the draw test of `current_state`, in row-major order. -/
def allOccupied (g : TicTacToe) : Bool :=
  (g.board 0 0).isSome && (g.board 0 1).isSome && (g.board 0 2).isSome &&
  (g.board 1 0).isSome && (g.board 1 1).isSome && (g.board 1 2).isSome &&
  (g.board 2 0).isSome && (g.board 2 1).isSome && (g.board 2 2).isSome
/-- `TicTacToe::current_state`: scan the three rows, the three columns, the
top-left→bottom-right diagonal and the bottom-left→top-right diagonal with
`these_win`, take the first hit, and otherwise report `Draw` on a full board
and `InProgress` on a non-full one. -/
def TicTacToe.current_state (g : TicTacToe) : GameState :=
  ((((((((these_win (g.board 0 0) (g.board 0 1) (g.board 0 2)).orElse
    (fun _ => these_win (g.board 1 0) (g.board 1 1) (g.board 1 2))).orElse
    (fun _ => these_win (g.board 2 0) (g.board 2 1) (g.board 2 2))).orElse
    (fun _ => these_win (g.board 0 0) (g.board 1 0) (g.board 2 0))).orElse
    (fun _ => these_win (g.board 0 1) (g.board 1 1) (g.board 2 1))).orElse
    (fun _ => these_win (g.board 0 2) (g.board 1 2) (g.board 2 2))).orElse
    (fun _ => these_win (g.board 0 0) (g.board 1 1) (g.board 2 2))).orElse
    (fun _ => these_win (g.board 2 0) (g.board 1 1) (g.board 0 2))).getD
    (if allOccupied g then GameState.Draw else GameState.InProgress)

/-- `TicTacToe::new`: empty board, X to move. -/
def TicTacToe.new : TicTacToe where
  board := fun _ _ => none
  whose_turn := X

/-- Error message of the range check in `go_indices`. -/
def rangeMsg : String := "Index out of range. Must be in from 0 to 2"

/-- Error message of the occupancy check in `go_indices`. -/
def occupiedMsg : String := "Can't move in an occupied space"

/-- Error message of the range check in `go_index`. -/
def indexRangeMsg : String :=
  "Index out of range. There are only 9 positions in Tic-Tac-Toe, and in this game, they are zero-indexed."

/-- The two assignments of `go_indices`'s success path: cell (x,y) is set to
the mover's symbol and the turn flips. -/
def afterMark (g : TicTacToe) (x y : Nat) : TicTacToe where
  board := fun i j =>
    if i.val = x ∧ j.val = y then some g.whose_turn else g.board i j
  whose_turn := g.whose_turn.other

/-- `TicTacToe::go_indices`: reject coordinates above 2, reject occupied
cells, otherwise mark the cell with the mover's symbol, flip the turn and
return the freshly computed state. -/
def TicTacToe.go_indices (g : TicTacToe) (x y : Nat) :
    TicTacToe × Except String GameState :=
  if h : x > 2 ∨ y > 2 then
    (g, Except.error rangeMsg)
  else
    have hx : x < 3 := by omega
    have hy : y < 3 := by omega
    match g.board ⟨x, hx⟩ ⟨y, hy⟩ with
    | some _ => (g, Except.error occupiedMsg)
    | none =>
      let g' : TicTacToe := afterMark g x y
      (g', Except.ok g'.current_state)

/-- `TicTacToe::go_index`: reject positions above 8, otherwise move at
row `pos / 3`, column `pos % 3`. -/
def TicTacToe.go_index (g : TicTacToe) (pos : Nat) :
    TicTacToe × Except String GameState :=
  if pos ≥ 9 then
    (g, Except.error indexRangeMsg)
  else
    g.go_indices (pos / 3) (pos % 3)

/-- Total cell accessor with the source's convention: any coordinate above 2
is outside the board. -/
def cellAt (g : TicTacToe) (x y : Nat) : Option Symbol :=
  if h : x < 3 ∧ y < 3 then g.board ⟨x, h.1⟩ ⟨y, h.2⟩ else none

/-- A call into the engine's mutating interface: either the coordinate form
`go_indices` or the single-index form `go_index`. -/
inductive Move where
  | indices (x y : Nat)
  | index (pos : Nat)
  deriving DecidableEq, Repr

/-- Post-state of one engine call (the result value is discarded). -/
def applyMove (g : TicTacToe) : Move → TicTacToe
  | Move.indices x y => (g.go_indices x y).1
  | Move.index pos => (g.go_index pos).1

/-- Post-state after a sequence of engine calls. -/
def applyMoves (g : TicTacToe) : List Move → TicTacToe
  | [] => g
  | m :: ms => applyMoves (applyMove g m) ms

/-- The list of results returned by a sequence of engine calls, threading the
state through. -/
def runMoves (g : TicTacToe) : List Move → List (Except String GameState)
  | [] => []
  | Move.indices x y :: ms =>
    let r := g.go_indices x y
    r.2 :: runMoves r.1 ms
  | Move.index pos :: ms =>
    let r := g.go_index pos
    r.2 :: runMoves r.1 ms

/-- Spec-side description of the outcome scan order: the three rows top to
bottom, the three columns left to right, the top-left→bottom-right diagonal,
then the bottom-left→top-right diagonal.  Each entry is the triple of cells
of one line. -/
def scanLines (g : TicTacToe) :
    List (Option Symbol × Option Symbol × Option Symbol) :=
  [(g.board 0 0, g.board 0 1, g.board 0 2),
   (g.board 1 0, g.board 1 1, g.board 1 2),
   (g.board 2 0, g.board 2 1, g.board 2 2),
   (g.board 0 0, g.board 1 0, g.board 2 0),
   (g.board 0 1, g.board 1 1, g.board 2 1),
   (g.board 0 2, g.board 1 2, g.board 2 2),
   (g.board 0 0, g.board 1 1, g.board 2 2),
   (g.board 2 0, g.board 1 1, g.board 0 2)]

/-- Spec-side winner of one line: the symbol `s` when the line's three cells
are all occupied and all equal to `s`, nothing otherwise. -/
def lineWinner : Option Symbol × Option Symbol × Option Symbol → Option Symbol
  | (some a, some b, some c) => if a = b ∧ a = c then some a else none
  | _ => none

/-- Symbols of the winning lines, in the spec's scan order. -/
def winners (g : TicTacToe) : List Symbol :=
  (scanLines g).filterMap lineWinner

/-- The nine cells of the board in row-major order. -/
def cellsList (g : TicTacToe) : List (Option Symbol) :=
  [cellAt g 0 0, cellAt g 0 1, cellAt g 0 2,
   cellAt g 1 0, cellAt g 1 1, cellAt g 1 2,
   cellAt g 2 0, cellAt g 2 1, cellAt g 2 2]

/-- Number of cells currently marked with `s`. -/
def countSym (g : TicTacToe) (s : Symbol) : Nat :=
  (cellsList g).count (some s)

/-- How many more marks X has than O when it is this symbol's turn, in any
game reachable from `new`. -/
def turnOffset : Symbol → Nat
  | X => 0
  | O => 1

/-- The mark-count bookkeeping invariant tying the board to `whose_turn`. -/
def balanced (g : TicTacToe) : Prop :=
  countSym g X = countSym g O + turnOffset g.whose_turn

theorem these_win_eq_lineWinner :
    ∀ a b c : Option Symbol,
      these_win a b c = (lineWinner (a, b, c)).map GameState.Win := by
  decide

theorem current_state_eq_scan (g : TicTacToe) :
    g.current_state =
      match winners g with
      | s :: _ => GameState.Win s
      | [] =>
        if allOccupied g then GameState.Draw else GameState.InProgress := by
  rw [TicTacToe.current_state, winners, scanLines]
  simp only [these_win_eq_lineWinner]
  rcases h1 : lineWinner (g.board 0 0, g.board 0 1, g.board 0 2) with _ | s1
  case some => simp [h1]
  rcases h2 : lineWinner (g.board 1 0, g.board 1 1, g.board 1 2) with _ | s2
  case some => simp [h1, h2]
  rcases h3 : lineWinner (g.board 2 0, g.board 2 1, g.board 2 2) with _ | s3
  case some => simp [h1, h2, h3]
  rcases h4 : lineWinner (g.board 0 0, g.board 1 0, g.board 2 0) with _ | s4
  case some => simp [h1, h2, h3, h4]
  rcases h5 : lineWinner (g.board 0 1, g.board 1 1, g.board 2 1) with _ | s5
  case some => simp [h1, h2, h3, h4, h5]
  rcases h6 : lineWinner (g.board 0 2, g.board 1 2, g.board 2 2) with _ | s6
  case some => simp [h1, h2, h3, h4, h5, h6]
  rcases h7 : lineWinner (g.board 0 0, g.board 1 1, g.board 2 2) with _ | s7
  case some => simp [h1, h2, h3, h4, h5, h6, h7]
  rcases h8 : lineWinner (g.board 2 0, g.board 1 1, g.board 0 2) with _ | s8
  case some => simp [h1, h2, h3, h4, h5, h6, h7, h8]
  simp [h1, h2, h3, h4, h5, h6, h7, h8]

theorem cellAt_eq_board (g : TicTacToe) (x y : Nat) (hx : x < 3) (hy : y < 3) :
    cellAt g x y = g.board ⟨x, hx⟩ ⟨y, hy⟩ := by
  rw [cellAt, dif_pos (And.intro hx hy)]

theorem cellAt_val (g : TicTacToe) (i j : Fin 3) :
    cellAt g i.val j.val = g.board i j :=
  cellAt_eq_board g i.val j.val i.isLt j.isLt

theorem go_indices_out_of_range (g : TicTacToe) (x y : Nat)
    (h : x > 2 ∨ y > 2) :
    g.go_indices x y = (g, Except.error rangeMsg) := by
  rw [TicTacToe.go_indices, dif_pos h]

theorem go_indices_occupied (g : TicTacToe) (x y : Nat) (hx : x ≤ 2)
    (hy : y ≤ 2) (h : cellAt g x y ≠ none) :
    g.go_indices x y = (g, Except.error occupiedMsg) := by
  have hx3 : x < 3 := by omega
  have hy3 : y < 3 := by omega
  rw [cellAt_eq_board g x y hx3 hy3] at h
  rw [TicTacToe.go_indices, dif_neg (by omega : ¬(x > 2 ∨ y > 2))]
  show (match g.board ⟨x, hx3⟩ ⟨y, hy3⟩ with
    | some _ => (g, Except.error occupiedMsg)
    | none =>
      let g' := afterMark g x y
      (g', Except.ok g'.current_state)) = (g, Except.error occupiedMsg)
  rcases hb : g.board ⟨x, hx3⟩ ⟨y, hy3⟩ with _ | s
  · exact absurd hb h
  · rfl

theorem go_indices_empty (g : TicTacToe) (x y : Nat) (hx : x ≤ 2)
    (hy : y ≤ 2) (h : cellAt g x y = none) :
    g.go_indices x y =
      (afterMark g x y, Except.ok (afterMark g x y).current_state) := by
  have hx3 : x < 3 := by omega
  have hy3 : y < 3 := by omega
  rw [cellAt_eq_board g x y hx3 hy3] at h
  rw [TicTacToe.go_indices, dif_neg (by omega : ¬(x > 2 ∨ y > 2))]
  show (match g.board ⟨x, hx3⟩ ⟨y, hy3⟩ with
    | some _ => (g, Except.error occupiedMsg)
    | none =>
      let g' := afterMark g x y
      (g', Except.ok g'.current_state)) =
    (afterMark g x y, Except.ok (afterMark g x y).current_state)
  rcases hb : g.board ⟨x, hx3⟩ ⟨y, hy3⟩ with _ | s
  · rfl
  · exact Option.noConfusion (h.symm.trans hb)

theorem go_index_out_of_range (g : TicTacToe) (pos : Nat) (h : pos ≥ 9) :
    g.go_index pos = (g, Except.error indexRangeMsg) := by
  rw [TicTacToe.go_index, if_pos h]

theorem go_index_in_range (g : TicTacToe) (pos : Nat) (h : pos < 9) :
    g.go_index pos = g.go_indices (pos / 3) (pos % 3) := by
  rw [TicTacToe.go_index, if_neg (by omega)]

theorem cellAt_afterMark_self (g : TicTacToe) (x y : Nat) (hx : x ≤ 2)
    (hy : y ≤ 2) :
    cellAt (afterMark g x y) x y = some g.whose_turn := by
  rw [cellAt_eq_board _ x y (by omega) (by omega)]
  simp [afterMark]

theorem cellAt_afterMark_other (g : TicTacToe) (x y i j : Nat)
    (hne : ¬(i = x ∧ j = y)) :
    cellAt (afterMark g x y) i j = cellAt g i j := by
  unfold cellAt
  split
  · simp [afterMark, hne]
  · rfl

theorem go_indices_cases (g : TicTacToe) (x y : Nat) :
    (x > 2 ∨ y > 2) ∧ g.go_indices x y = (g, Except.error rangeMsg) ∨
    (x ≤ 2 ∧ y ≤ 2 ∧ cellAt g x y ≠ none) ∧
      g.go_indices x y = (g, Except.error occupiedMsg) ∨
    (x ≤ 2 ∧ y ≤ 2 ∧ cellAt g x y = none) ∧
      g.go_indices x y =
        (afterMark g x y, Except.ok (afterMark g x y).current_state) := by
  by_cases hr : x > 2 ∨ y > 2
  · exact Or.inl ⟨hr, go_indices_out_of_range g x y hr⟩
  · rcases hc : cellAt g x y with _ | s
    · exact Or.inr (Or.inr ⟨⟨by omega, by omega, rfl⟩,
        go_indices_empty g x y (by omega) (by omega) hc⟩)
    · exact Or.inr (Or.inl ⟨⟨by omega, by omega, by simp⟩,
        go_indices_occupied g x y (by omega) (by omega) (by simp [hc])⟩)

theorem go_indices_error_unchanged (g : TicTacToe) (x y : Nat) (e : String)
    (he : (g.go_indices x y).2 = Except.error e) :
    (g.go_indices x y).1 = g := by
  rcases go_indices_cases g x y with ⟨_, h⟩ | ⟨_, h⟩ | ⟨_, h⟩
  · rw [h]
  · rw [h]
  · rw [h] at he
    exact Except.noConfusion he

theorem go_indices_preserves_some (g : TicTacToe) (x y i j : Nat) (s : Symbol)
    (h : cellAt g i j = some s) :
    cellAt (g.go_indices x y).1 i j = some s := by
  rcases go_indices_cases g x y with ⟨_, hq⟩ | ⟨_, hq⟩ | ⟨⟨_, _, hc⟩, hq⟩
  · rw [hq]; exact h
  · rw [hq]; exact h
  · rw [hq]
    have hne : ¬(i = x ∧ j = y) := by
      rintro ⟨rfl, rfl⟩
      rw [h] at hc
      exact Option.noConfusion hc
    rw [cellAt_afterMark_other g x y i j hne]
    exact h


/-- C6: from a fresh game, the move sequence (1,1), (1,2), (2,0), (0,2),
(0,0), (2,2) succeeds at every step, every move before the last returns
`InProgress`, and the last move returns `Win O`, O being the second player's
symbol (the engine's own `o_wins` scenario). -/
theorem o_wins_scenario :
    runMoves TicTacToe.new
        [Move.indices 1 1, Move.indices 1 2, Move.indices 2 0,
         Move.indices 0 2, Move.indices 0 0, Move.indices 2 2] =
      [Except.ok GameState.InProgress, Except.ok GameState.InProgress,
       Except.ok GameState.InProgress, Except.ok GameState.InProgress,
       Except.ok GameState.InProgress, Except.ok (GameState.Win O)] ∧
    TicTacToe.new.whose_turn.other = O := by
  decide

/-- C7 counterexample: the alleged draw pattern — X taking (0,0), (0,1),
(1,1), (2,0), (2,2) and O taking (0,2), (1,0), (1,2), (2,1), alternating —
ends with the engine reporting `Win X`, not `Draw`: X's cells (0,0), (1,1),
(2,2) complete the main diagonal. -/
theorem draw_scenario_counterexample :
    (runMoves TicTacToe.new
        [Move.indices 0 0, Move.indices 0 2, Move.indices 0 1,
         Move.indices 1 0, Move.indices 1 1, Move.indices 1 2,
         Move.indices 2 0, Move.indices 2 1, Move.indices 2 2]).getLast? =
      some (Except.ok (GameState.Win X)) ∧
    some (Except.ok (GameState.Win X)) ≠
      (some (Except.ok GameState.Draw) : Option (Except String GameState)) := by
  decide

/-- C7 amended: playing the pattern X:(0,0),(0,1),(1,1),(2,0),(2,2),
O:(0,2),(1,0),(1,2),(2,1) with alternating turns, every move succeeds, every
move before the last returns `InProgress`, and the final move returns
`Win X` — the first player's symbol, whose cells complete the main
diagonal — rather than `Draw`. -/
theorem draw_scenario_actual :
    runMoves TicTacToe.new
        [Move.indices 0 0, Move.indices 0 2, Move.indices 0 1,
         Move.indices 1 0, Move.indices 1 1, Move.indices 1 2,
         Move.indices 2 0, Move.indices 2 1, Move.indices 2 2] =
      [Except.ok GameState.InProgress, Except.ok GameState.InProgress,
       Except.ok GameState.InProgress, Except.ok GameState.InProgress,
       Except.ok GameState.InProgress, Except.ok GameState.InProgress,
       Except.ok GameState.InProgress, Except.ok GameState.InProgress,
       Except.ok (GameState.Win X)] := by
  decide

/-- C8 counterexample: a reachable game whose state is `Win X` (X filled row
2 while O filled two cells of row 0) accepts one more move, after which
`current_state` reports `Win O` — the reported outcome flips to the other
symbol's win within the same round. -/
theorem terminal_flip_counterexample :
    (applyMoves TicTacToe.new
        [Move.indices 2 0, Move.indices 0 0, Move.indices 2 1,
         Move.indices 0 1, Move.indices 2 2]).current_state =
      GameState.Win X ∧
    (applyMoves TicTacToe.new
        [Move.indices 2 0, Move.indices 0 0, Move.indices 2 1,
         Move.indices 0 1, Move.indices 2 2, Move.indices 0 2]).current_state =
      GameState.Win O ∧
    GameState.Win O ≠ GameState.Win X := by
  decide

theorem countSym_afterMark (g : TicTacToe) (x y : Nat) (hx : x ≤ 2)
    (hy : y ≤ 2) (hc : cellAt g x y = none) (s : Symbol) :
    countSym (afterMark g x y) s =
      countSym g s + (if g.whose_turn = s then 1 else 0) := by
  unfold countSym cellsList
  interval_cases x <;> interval_cases y <;>
    simp [cellAt_afterMark_self, cellAt_afterMark_other, hc,
      List.count_cons] <;>
    by_cases hws : g.whose_turn = s <;>
    simp [hws] <;> omega

theorem balanced_go_indices (g : TicTacToe) (x y : Nat) (h : balanced g) :
    balanced (g.go_indices x y).1 := by
  rcases go_indices_cases g x y with ⟨-, hq⟩ | ⟨-, hq⟩ | ⟨⟨hx, hy, hc⟩, hq⟩
  · rw [hq]; exact h
  · rw [hq]; exact h
  · rw [hq]
    unfold balanced at h ⊢
    rw [countSym_afterMark g x y hx hy hc X,
      countSym_afterMark g x y hx hy hc O]
    have hturn : (afterMark g x y).whose_turn = g.whose_turn.other := rfl
    rw [hturn]
    rcases hw : g.whose_turn with _ | _ <;> rw [hw] at h <;>
      simp [Symbol.other, turnOffset] at h ⊢ <;> omega

theorem balanced_applyMove (g : TicTacToe) (m : Move) (h : balanced g) :
    balanced (applyMove g m) := by
  cases m with
  | indices x y => exact balanced_go_indices g x y h
  | index pos =>
    show balanced (g.go_index pos).1
    by_cases h9 : pos ≥ 9
    · rw [go_index_out_of_range g pos h9]; exact h
    · rw [go_index_in_range g pos (by omega)]
      exact balanced_go_indices g (pos / 3) (pos % 3) h

theorem balanced_applyMoves (g : TicTacToe) (h : balanced g)
    (ms : List Move) : balanced (applyMoves g ms) := by
  induction ms generalizing g with
  | nil => exact h
  | cons m ms ih => exact ih (applyMove g m) (balanced_applyMove g m h)

theorem balanced_new : balanced TicTacToe.new := by
  unfold balanced
  decide

theorem lineWinner_some_iff :
    ∀ (t : Option Symbol × Option Symbol × Option Symbol) (u : Symbol),
      lineWinner t = some u ↔ t = (some u, some u, some u) := by
  decide

theorem applyMove_preserves_board_some (g : TicTacToe) (m : Move)
    (i j : Fin 3) (s : Symbol) (h : g.board i j = some s) :
    (applyMove g m).board i j = some s := by
  rw [← cellAt_val] at h ⊢
  cases m with
  | indices x y => exact go_indices_preserves_some g x y i.val j.val s h
  | index pos =>
    show cellAt (g.go_index pos).1 i.val j.val = some s
    by_cases h9 : pos ≥ 9
    · rw [go_index_out_of_range g pos h9]
      exact h
    · rw [go_index_in_range g pos (by omega)]
      exact go_indices_preserves_some g (pos / 3) (pos % 3) i.val j.val s h

theorem winners_ne_nil_of_pres (g g' : TicTacToe)
    (hp : ∀ i j : Fin 3, ∀ s : Symbol,
      g.board i j = some s → g'.board i j = some s)
    (h : winners g ≠ []) : winners g' ≠ [] := by
  have hex : ∃ t ∈ scanLines g, lineWinner t ≠ none := by
    by_contra hc
    push_neg at hc
    exact h (List.filterMap_eq_nil_iff.mpr hc)
  obtain ⟨t, ht, hlw⟩ := hex
  obtain ⟨u, hu⟩ := Option.ne_none_iff_exists'.mp hlw
  intro hnil
  rw [winners, List.filterMap_eq_nil_iff] at hnil
  simp only [scanLines, List.mem_cons, List.not_mem_nil, or_false] at ht
  rcases ht with rfl | rfl | rfl | rfl | rfl | rfl | rfl | rfl
  · rw [lineWinner_some_iff] at hu
    simp only [Prod.mk.injEq] at hu
    have h0 := hnil (g'.board 0 0, g'.board 0 1, g'.board 0 2)
      (by simp [scanLines])
    rw [hp _ _ _ hu.1, hp _ _ _ hu.2.1, hp _ _ _ hu.2.2] at h0
    simp [lineWinner] at h0
  · rw [lineWinner_some_iff] at hu
    simp only [Prod.mk.injEq] at hu
    have h0 := hnil (g'.board 1 0, g'.board 1 1, g'.board 1 2)
      (by simp [scanLines])
    rw [hp _ _ _ hu.1, hp _ _ _ hu.2.1, hp _ _ _ hu.2.2] at h0
    simp [lineWinner] at h0
  · rw [lineWinner_some_iff] at hu
    simp only [Prod.mk.injEq] at hu
    have h0 := hnil (g'.board 2 0, g'.board 2 1, g'.board 2 2)
      (by simp [scanLines])
    rw [hp _ _ _ hu.1, hp _ _ _ hu.2.1, hp _ _ _ hu.2.2] at h0
    simp [lineWinner] at h0
  · rw [lineWinner_some_iff] at hu
    simp only [Prod.mk.injEq] at hu
    have h0 := hnil (g'.board 0 0, g'.board 1 0, g'.board 2 0)
      (by simp [scanLines])
    rw [hp _ _ _ hu.1, hp _ _ _ hu.2.1, hp _ _ _ hu.2.2] at h0
    simp [lineWinner] at h0
  · rw [lineWinner_some_iff] at hu
    simp only [Prod.mk.injEq] at hu
    have h0 := hnil (g'.board 0 1, g'.board 1 1, g'.board 2 1)
      (by simp [scanLines])
    rw [hp _ _ _ hu.1, hp _ _ _ hu.2.1, hp _ _ _ hu.2.2] at h0
    simp [lineWinner] at h0
  · rw [lineWinner_some_iff] at hu
    simp only [Prod.mk.injEq] at hu
    have h0 := hnil (g'.board 0 2, g'.board 1 2, g'.board 2 2)
      (by simp [scanLines])
    rw [hp _ _ _ hu.1, hp _ _ _ hu.2.1, hp _ _ _ hu.2.2] at h0
    simp [lineWinner] at h0
  · rw [lineWinner_some_iff] at hu
    simp only [Prod.mk.injEq] at hu
    have h0 := hnil (g'.board 0 0, g'.board 1 1, g'.board 2 2)
      (by simp [scanLines])
    rw [hp _ _ _ hu.1, hp _ _ _ hu.2.1, hp _ _ _ hu.2.2] at h0
    simp [lineWinner] at h0
  · rw [lineWinner_some_iff] at hu
    simp only [Prod.mk.injEq] at hu
    have h0 := hnil (g'.board 2 0, g'.board 1 1, g'.board 0 2)
      (by simp [scanLines])
    rw [hp _ _ _ hu.1, hp _ _ _ hu.2.1, hp _ _ _ hu.2.2] at h0
    simp [lineWinner] at h0

theorem winners_ne_nil_applyMoves (g : TicTacToe) (ms : List Move)
    (h : winners g ≠ []) : winners (applyMoves g ms) ≠ [] := by
  induction ms generalizing g with
  | nil => exact h
  | cons m ms ih =>
    exact ih (applyMove g m)
      (winners_ne_nil_of_pres g (applyMove g m)
        (fun i j s hb => applyMove_preserves_board_some g m i j s hb) h)

theorem allOccupied_cell_ne_none (g : TicTacToe)
    (hall : allOccupied g = true) (x y : Nat) (hx : x ≤ 2) (hy : y ≤ 2) :
    cellAt g x y ≠ none := by
  unfold allOccupied at hall
  simp only [Bool.and_eq_true, Option.isSome_iff_ne_none] at hall
  interval_cases x <;> interval_cases y <;>
    rw [cellAt_eq_board _ _ _ (by omega) (by omega)] <;> tauto

theorem applyMove_full_unchanged (g : TicTacToe)
    (hall : allOccupied g = true) (m : Move) : applyMove g m = g := by
  have hgi : ∀ x y : Nat, (g.go_indices x y).1 = g := by
    intro x y
    rcases go_indices_cases g x y with ⟨-, hq⟩ | ⟨-, hq⟩ | ⟨⟨hx, hy, hc⟩, hq⟩
    · rw [hq]
    · rw [hq]
    · exact absurd hc (allOccupied_cell_ne_none g hall x y hx hy)
  cases m with
  | indices x y => exact hgi x y
  | index pos =>
    show (g.go_index pos).1 = g
    by_cases h9 : pos ≥ 9
    · rw [go_index_out_of_range g pos h9]
    · rw [go_index_in_range g pos (by omega)]
      exact hgi (pos / 3) (pos % 3)

/-- C2: `current_state` returns `Win s` exactly when some line — scanned as
rows 0,1,2, then columns 0,1,2, then the two diagonals — has three occupied
cells all equal to `s`, the first match in that fixed order deciding the
winner; it returns `Draw` exactly when no line matches and all nine cells
are occupied, and `InProgress` exactly when no line matches and some cell is
empty.  The three outcomes are mutually exclusive and exhaustive. -/
theorem current_state_characterization (g : TicTacToe) :
    (∀ s, g.current_state = GameState.Win s ↔ (winners g).head? = some s) ∧
    (g.current_state = GameState.Draw ↔
      winners g = [] ∧ allOccupied g = true) ∧
    (g.current_state = GameState.InProgress ↔
      winners g = [] ∧ allOccupied g = false) := by
  have h := current_state_eq_scan g
  rcases hw : winners g with _ | ⟨s0, rest⟩ <;> rw [hw] at h
  · cases hall : allOccupied g <;> rw [hall] at h <;> simp at h <;> simp [h]
  · simp at h
    simp [h]

/-- C10: in every game reachable from `new` by any sequence of `go_indices`
and `go_index` calls, successful or failed, the number of X marks minus the
number of O marks is 0 or 1, and it is X's turn exactly when the two counts
are equal. -/
theorem reachable_count_invariant (ms : List Move) :
    (countSym (applyMoves TicTacToe.new ms) X =
        countSym (applyMoves TicTacToe.new ms) O ∨
      countSym (applyMoves TicTacToe.new ms) X =
        countSym (applyMoves TicTacToe.new ms) O + 1) ∧
    ((applyMoves TicTacToe.new ms).whose_turn = X ↔
      countSym (applyMoves TicTacToe.new ms) X =
        countSym (applyMoves TicTacToe.new ms) O) := by
  have hb := balanced_applyMoves TicTacToe.new balanced_new ms
  unfold balanced at hb
  refine ⟨?_, ?_⟩
  · rcases hwt : (applyMoves TicTacToe.new ms).whose_turn with _ | _ <;>
      rw [hwt] at hb <;> simp [turnOffset] at hb <;> omega
  · rcases hwt : (applyMoves TicTacToe.new ms).whose_turn with _ | _ <;>
      rw [hwt] at hb <;> simp [turnOffset] at hb
    · simp [hb]
    · constructor
      · intro hcontra
        exact Symbol.noConfusion hcontra
      · intro heq
        rw [heq] at hb
        omega

/-- C8 amended: the engine freezes the kind of a terminal outcome but not
the winning symbol.  Once `current_state` is `Draw`, the board is full, so
every further call is rejected, the game is unchanged and the outcome stays
`Draw`; once it is `Win s`, after any further sequence of calls the outcome
is still a `Win` of some symbol — it never switches between `Win` and
`Draw` — but the engine does not prevent the winning symbol itself from
flipping to the other player. -/
theorem terminal_outcome_kind_stable (g : TicTacToe) (ms : List Move) :
    (g.current_state = GameState.Draw →
      applyMoves g ms = g ∧
      (applyMoves g ms).current_state = GameState.Draw) ∧
    (∀ s, g.current_state = GameState.Win s →
      ∃ t, (applyMoves g ms).current_state = GameState.Win t) := by
  constructor
  · intro hd
    have hall : allOccupied g = true := by
      have h := current_state_eq_scan g
      rw [hd] at h
      rcases hw : winners g with _ | ⟨s0, r⟩ <;> rw [hw] at h
      · by_cases hall : allOccupied g = true
        · exact hall
        · rw [Bool.not_eq_true] at hall
          rw [hall] at h
          simp at h
      · simp at h
    have hfix : applyMoves g ms = g := by
      induction ms with
      | nil => rfl
      | cons m ms ih =>
        show applyMoves (applyMove g m) ms = g
        rw [applyMove_full_unchanged g hall m]
        exact ih
    exact ⟨hfix, by rw [hfix, hd]⟩
  · intro s hwin
    have hne : winners g ≠ [] := by
      intro hw
      have h := current_state_eq_scan g
      rw [hwin, hw] at h
      cases hall : allOccupied g <;> rw [hall] at h <;> simp at h
    have hne' := winners_ne_nil_applyMoves g ms hne
    have hfin := current_state_eq_scan (applyMoves g ms)
    rcases hw2 : winners (applyMoves g ms) with _ | ⟨t, r⟩
    · exact absurd hw2 hne'
    · rw [hw2] at hfin
      exact ⟨t, by simpa using hfin⟩

theorem terminal_outcome_kind_stable_witness :
    (applyMoves TicTacToe.new
        [Move.indices 0 0, Move.indices 0 1, Move.indices 0 2,
         Move.indices 1 1, Move.indices 1 0, Move.indices 1 2,
         Move.indices 2 1, Move.indices 2 0, Move.indices 2 2]).current_state =
      GameState.Draw ∧
    applyMoves
        (applyMoves TicTacToe.new
          [Move.indices 0 0, Move.indices 0 1, Move.indices 0 2,
           Move.indices 1 1, Move.indices 1 0, Move.indices 1 2,
           Move.indices 2 1, Move.indices 2 0, Move.indices 2 2])
        [Move.indices 0 0] =
      applyMoves TicTacToe.new
        [Move.indices 0 0, Move.indices 0 1, Move.indices 0 2,
         Move.indices 1 1, Move.indices 1 0, Move.indices 1 2,
         Move.indices 2 1, Move.indices 2 0, Move.indices 2 2] ∧
    (∃ t,
      (applyMoves
          (applyMoves TicTacToe.new
            [Move.indices 2 0, Move.indices 0 0, Move.indices 2 1,
             Move.indices 0 1, Move.indices 2 2])
          [Move.indices 0 2]).current_state = GameState.Win t) := by
  refine ⟨by decide, ?_, ?_⟩
  · exact ((terminal_outcome_kind_stable
      (applyMoves TicTacToe.new
        [Move.indices 0 0, Move.indices 0 1, Move.indices 0 2,
         Move.indices 1 1, Move.indices 1 0, Move.indices 1 2,
         Move.indices 2 1, Move.indices 2 0, Move.indices 2 2])
      [Move.indices 0 0]).1 (by decide)).1
  · exact (terminal_outcome_kind_stable
      (applyMoves TicTacToe.new
        [Move.indices 2 0, Move.indices 0 0, Move.indices 2 1,
         Move.indices 0 1, Move.indices 2 2])
      [Move.indices 0 2]).2 X (by decide)

/-- C1: for every game and every in-range empty cell (x,y), `go_indices`
succeeds: it sets cell (x,y) to the current turn's symbol, leaves every other
cell unchanged, flips the turn to the other symbol, and returns `Ok` of the
freshly computed state of the updated game. -/
theorem go_indices_success_effect (g : TicTacToe) (x y : Nat) (hx : x ≤ 2)
    (hy : y ≤ 2) (hc : cellAt g x y = none) :
    cellAt (g.go_indices x y).1 x y = some g.whose_turn ∧
    (∀ i j : Nat, ¬(i = x ∧ j = y) →
      cellAt (g.go_indices x y).1 i j = cellAt g i j) ∧
    (g.go_indices x y).1.whose_turn = g.whose_turn.other ∧
    (g.go_indices x y).2 = Except.ok ((g.go_indices x y).1.current_state) := by
  rw [go_indices_empty g x y hx hy hc]
  refine ⟨cellAt_afterMark_self g x y hx hy, ?_, rfl, rfl⟩
  intro i j hne
  exact cellAt_afterMark_other g x y i j hne

theorem go_indices_success_effect_witness :
    (0 : Nat) ≤ 2 ∧ cellAt TicTacToe.new 0 1 = none ∧
    cellAt (TicTacToe.new.go_indices 0 1).1 0 1 = some TicTacToe.new.whose_turn ∧
    (TicTacToe.new.go_indices 0 1).1.whose_turn = TicTacToe.new.whose_turn.other ∧
    (TicTacToe.new.go_indices 0 1).2 =
      Except.ok ((TicTacToe.new.go_indices 0 1).1.current_state) := by
  have h := go_indices_success_effect TicTacToe.new 0 1 (by decide) (by decide)
    (by decide)
  exact ⟨by decide, by decide, h.1, h.2.2.1, h.2.2.2⟩

/-- C3: whenever a call to `go_indices` or `go_index` returns an error, the
game afterwards equals the game before the call exactly — every cell and the
turn are unchanged, so a rejected move does not advance the turn. -/
theorem failed_call_leaves_game_unchanged (g : TicTacToe) (x y pos : Nat)
    (e : String) :
    ((g.go_indices x y).2 = Except.error e → (g.go_indices x y).1 = g) ∧
    ((g.go_index pos).2 = Except.error e → (g.go_index pos).1 = g) := by
  refine ⟨go_indices_error_unchanged g x y e, ?_⟩
  intro he
  by_cases h9 : pos ≥ 9
  · rw [go_index_out_of_range g pos h9]
  · rw [go_index_in_range g pos (by omega)] at he ⊢
    exact go_indices_error_unchanged g (pos / 3) (pos % 3) e he

theorem failed_call_leaves_game_unchanged_witness :
    (TicTacToe.new.go_indices 3 0).2 = Except.error rangeMsg ∧
    (TicTacToe.new.go_indices 3 0).1 = TicTacToe.new ∧
    (TicTacToe.new.go_index 9).2 = Except.error indexRangeMsg ∧
    (TicTacToe.new.go_index 9).1 = TicTacToe.new := by
  refine ⟨by rfl, ?_, by rfl, ?_⟩
  · exact (failed_call_leaves_game_unchanged TicTacToe.new 3 0 9 rangeMsg).1
      (by rfl)
  · exact (failed_call_leaves_game_unchanged TicTacToe.new 3 0 9
      indexRangeMsg).2 (by rfl)

/-- C4: `go_indices` fails with the out-of-range error exactly when x or y is
above 2 (this check takes priority), fails with the occupied-cell error
exactly when the coordinates are in range and the target cell is occupied,
and succeeds in every remaining case; `go_index` fails with an out-of-range
error exactly when the position is above 8 (the converted coordinates are
always in range), and succeeds exactly when the position is in range and the
target cell is empty. -/
theorem error_classification (g : TicTacToe) (x y pos : Nat) :
    ((g.go_indices x y).2 = Except.error rangeMsg ↔ x > 2 ∨ y > 2) ∧
    ((g.go_indices x y).2 = Except.error occupiedMsg ↔
      x ≤ 2 ∧ y ≤ 2 ∧ cellAt g x y ≠ none) ∧
    ((∃ st, (g.go_indices x y).2 = Except.ok st) ↔
      x ≤ 2 ∧ y ≤ 2 ∧ cellAt g x y = none) ∧
    (((g.go_index pos).2 = Except.error indexRangeMsg ∨
        (g.go_index pos).2 = Except.error rangeMsg) ↔ 9 ≤ pos) ∧
    ((∃ st, (g.go_index pos).2 = Except.ok st) ↔
      pos ≤ 8 ∧ cellAt g (pos / 3) (pos % 3) = none) := by
  have hne1 : rangeMsg ≠ occupiedMsg := by decide
  have hne2 : indexRangeMsg ≠ rangeMsg := by decide
  have hne3 : indexRangeMsg ≠ occupiedMsg := by decide
  have main : ∀ a b : Nat,
      ((g.go_indices a b).2 = Except.error rangeMsg ↔ a > 2 ∨ b > 2) ∧
      ((g.go_indices a b).2 = Except.error occupiedMsg ↔
        a ≤ 2 ∧ b ≤ 2 ∧ cellAt g a b ≠ none) ∧
      ((∃ st, (g.go_indices a b).2 = Except.ok st) ↔
        a ≤ 2 ∧ b ≤ 2 ∧ cellAt g a b = none) := by
    intro a b
    rcases go_indices_cases g a b with ⟨hr, hq⟩ | ⟨⟨ha, hb, hc⟩, hq⟩ |
      ⟨⟨ha, hb, hc⟩, hq⟩
    · rw [hq]
      refine ⟨by simp [hr], ?_, ?_⟩
      · simp only [Except.error.injEq]
        constructor
        · intro h; exact absurd h hne1
        · rintro ⟨h1, h2, -⟩; omega
      · constructor
        · rintro ⟨st, h⟩; exact Except.noConfusion h
        · rintro ⟨h1, h2, -⟩; omega
    · rw [hq]
      refine ⟨?_, by simp [ha, hb, hc], ?_⟩
      · simp only [Except.error.injEq]
        constructor
        · intro h; exact absurd h (Ne.symm hne1)
        · intro h; omega
      · constructor
        · rintro ⟨st, h⟩; exact Except.noConfusion h
        · rintro ⟨-, -, h⟩; exact absurd h hc
    · rw [hq]
      refine ⟨?_, ?_, by simp [ha, hb, hc]⟩
      · constructor
        · intro h; exact Except.noConfusion h
        · intro h; omega
      · constructor
        · intro h; exact Except.noConfusion h
        · rintro ⟨-, -, h⟩; exact absurd hc h
  refine ⟨(main x y).1, (main x y).2.1, (main x y).2.2, ?_, ?_⟩
  · by_cases h9 : 9 ≤ pos
    · rw [go_index_out_of_range g pos h9]
      simp [h9]
    · rw [go_index_in_range g pos (by omega)]
      constructor
      · rintro (h | h)
        · rcases go_indices_cases g (pos / 3) (pos % 3) with ⟨hr, hq⟩ |
            ⟨-, hq⟩ | ⟨-, hq⟩
          · omega
          · rw [hq] at h
            simp only [Except.error.injEq] at h
            exact absurd h (Ne.symm hne3)
          · rw [hq] at h
            exact Except.noConfusion h
        · have := ((main (pos / 3) (pos % 3)).1).mp h
          omega
      · intro h; omega
  · by_cases h9 : 9 ≤ pos
    · rw [go_index_out_of_range g pos h9]
      constructor
      · rintro ⟨st, h⟩; exact Except.noConfusion h
      · rintro ⟨h, -⟩; omega
    · rw [go_index_in_range g pos (by omega)]
      rw [(main (pos / 3) (pos % 3)).2.2]
      constructor
      · rintro ⟨-, -, h⟩; exact ⟨by omega, h⟩
      · rintro ⟨-, h⟩; exact ⟨by omega, by omega, h⟩

/-- C5: for every game and every position in [0,8], `go_index` returns the
same result and the same final state as `go_indices` at row `pos / 3`,
column `pos % 3`. -/
theorem go_index_refines_go_indices (g : TicTacToe) (pos : Nat)
    (h : pos ≤ 8) :
    g.go_index pos = g.go_indices (pos / 3) (pos % 3) :=
  go_index_in_range g pos (by omega)

theorem go_index_refines_go_indices_witness :
    (4 : Nat) ≤ 8 ∧
    TicTacToe.new.go_index 4 = TicTacToe.new.go_indices (4 / 3) (4 % 3) :=
  ⟨by decide, go_index_refines_go_indices TicTacToe.new 4 (by decide)⟩

/-- C9: a cell that holds a symbol before a `go_indices` or `go_index` call
holds the same symbol after the call — a cell, once set, is never cleared and
never overwritten with a different symbol. -/
theorem cells_never_overwritten (g : TicTacToe) (x y pos i j : Nat)
    (s : Symbol) (h : cellAt g i j = some s) :
    cellAt (g.go_indices x y).1 i j = some s ∧
    cellAt (g.go_index pos).1 i j = some s := by
  refine ⟨go_indices_preserves_some g x y i j s h, ?_⟩
  by_cases h9 : pos ≥ 9
  · rw [go_index_out_of_range g pos h9]
    exact h
  · rw [go_index_in_range g pos (by omega)]
    exact go_indices_preserves_some g (pos / 3) (pos % 3) i j s h

theorem cells_never_overwritten_witness :
    cellAt (TicTacToe.new.go_indices 0 0).1 0 0 = some X ∧
    cellAt ((TicTacToe.new.go_indices 0 0).1.go_indices 1 1).1 0 0 = some X ∧
    cellAt ((TicTacToe.new.go_indices 0 0).1.go_index 5).1 0 0 = some X := by
  have h0 : cellAt (TicTacToe.new.go_indices 0 0).1 0 0 = some X := by decide
  have h := cells_never_overwritten (TicTacToe.new.go_indices 0 0).1 1 1 5 0 0
    X h0
  exact ⟨h0, h.1, h.2⟩

end Tictactoe
